import Mathlib

/-!
# Verification of the Task-Alignment Compass core module

Shallow embedding of the task/storage utilities of the app
(`sortTasksByEisenhower`, `upsertTodayTask`, `addTask`, `finalizeEntry`,
`getTaskCounts`, and the localStorage helpers), together with the
storage-adapter variant module (corrupt-key handling, aggregate counts).

Modelling conventions:
* Timestamps (`Date.now()`, `toISOString`, task `createdAt`) are integers of
  milliseconds since the epoch; the ISO string and its parsed millisecond
  value are in bijection, so the integer stands for the string.
* `new Date().toDateString()` (today's calendar-day key) and the uuid
  generator are oracles: they are passed in as an `Env`/argument, constant
  within one operation, exactly as one call observes them.
* JavaScript numbers in the scoring path are modelled by exact rationals
  (`ℚ`); the score ordering facts proved here are robust under this reading.
* The persistent store is modelled at two levels: a typed level (the JSON
  round-trip is the identity on well-formed data the module itself writes),
  used by the task operations, and a raw string level with a genuine JSON
  grammar parser, used for the corrupt-storage behaviour of `getDailyEntries`.
* JavaScript `Array.prototype.sort` with a consistent comparator is a stable
  sort (ES2019); a stable sort into a given total preorder is unique, so it
  is modelled by insertion sort with the same preorder.
* `throw` in `addTask` is modelled by `Except.error` paired with the
  unchanged store.
-/

namespace Compass

/-- `type TaskCategory = 'personal' | 'professional'`. -/
inductive TaskCategory where
  | personal
  | professional
deriving DecidableEq, Repr

/-- The `Task` interface: id, text, category, 1-based priority, completion
flag, and capture timestamp (`createdAt`, modelled in ms). -/
structure Task where
  id : String
  text : String
  category : TaskCategory
  priority : Nat
  completed : Bool
  createdAt : Int
deriving DecidableEq, Repr

/-- The `DailyEntry` interface: day key, ordered task list, optional
reflection, and save instant (ms). -/
structure DailyEntry where
  date : String
  tasks : List Task
  reflection : Option String
  timestamp : Int
deriving DecidableEq, Repr

/-- Ambient observations of one operation: `Date.now()` in ms and
`new Date().toDateString()` (today's day key). -/
structure Env where
  nowMs : Int
  today : String
deriving DecidableEq, Repr

/-- Typed view of the two localStorage keys: the parsed `dailyEntries` array
and the `lastCompleted` scalar (absent key = `none`). -/
structure Store where
  entries : List DailyEntry
  lastCompleted : Option String
deriving DecidableEq, Repr

/-- `_importanceWeight`: professional = 2, personal = 1. -/
def importanceWeight : TaskCategory → ℚ
  | .professional => 2
  | .personal => 1

/-- `_ageInHours`: `(Date.now() - createdAt)` in hours, clamped `≥ 1`. -/
def ageInHours (nowMs createdAt : Int) : ℚ :=
  max ((nowMs - createdAt : ℚ) / (1000 * 60 * 60)) 1

/-- Eisenhower score of a task: `importance + 1 / ageInHours`. -/
def score (nowMs : Int) (t : Task) : ℚ :=
  importanceWeight t.category + 1 / ageInHours nowMs t.createdAt

/-- `sortTasksByEisenhower`: a descending-sorted copy of the list (highest
score first).  `[...tasks].sort((a, b) => scoreB - scoreA)` is a stable sort
into descending score order, modelled by insertion sort with the total
preorder `score b ≤ score a`. -/
def sortTasksByEisenhower (nowMs : Int) (tasks : List Task) : List Task :=
  tasks.insertionSort (fun a b => score nowMs b ≤ score nowMs a)

/-- `getDailyEntries` at the typed level: the stored entry array. -/
def getDailyEntries (st : Store) : List DailyEntry :=
  st.entries

/-- `setDailyEntries`: overwrite the full entry array. -/
def setDailyEntries (entries : List DailyEntry) (st : Store) : Store :=
  { st with entries := entries }

/-- `setLastCompletedDate`: overwrite the `lastCompleted` scalar. -/
def setLastCompletedDate (date : String) (st : Store) : Store :=
  { st with lastCompleted := some date }

/-- `getLastCompletedDate`: read the `lastCompleted` scalar. -/
def getLastCompletedDate (st : Store) : Option String :=
  st.lastCompleted

/-- `saveDailyEntry`: append one entry to the stored array and set
`lastCompleted` to the entry's date. -/
def saveDailyEntry (entry : DailyEntry) (st : Store) : Store :=
  setLastCompletedDate entry.date
    (setDailyEntries (getDailyEntries st ++ [entry]) st)

/-- The task-list update inside `upsertTodayTask`: `findIndex` on the id,
replace the first task with a matching id in place, push when there is
none. -/
def upsertIntoTasks (task : Task) : List Task → List Task
  | [] => [task]
  | t :: ts =>
    if t.id == task.id then task :: ts else t :: upsertIntoTasks task ts

/-- The entry-list update inside `upsertTodayTask`: mutate the first entry
whose date is today's key (as `entries.find` returns it); if none exists,
push a fresh entry `{date: today, tasks: [], timestamp: now}` and then push
the task into it. -/
def upsertEntries (env : Env) (task : Task) : List DailyEntry → List DailyEntry
  | [] => [{ date := env.today, tasks := [task], reflection := none,
             timestamp := env.nowMs }]
  | e :: rest =>
    if e.date == env.today then
      { e with tasks := upsertIntoTasks task e.tasks } :: rest
    else
      e :: upsertEntries env task rest

/-- `upsertTodayTask`: add or update a single task for today, auto-creating
today's entry, and persist the full array. -/
def upsertTodayTask (env : Env) (task : Task) (st : Store) : Store :=
  setDailyEntries (upsertEntries env task (getDailyEntries st)) st

/-- `getTodayTasks`: tasks of the first stored entry whose date is today's
key, or `[]`. -/
def getTodayTasks (env : Env) (st : Store) : List Task :=
  match (getDailyEntries st).find? (fun e => e.date == env.today) with
  | some e => e.tasks
  | none => []

/-- `String.prototype.trim` of the task text: strip leading and trailing
whitespace.  Modelled directly on the character list so that it evaluates by
kernel reduction. -/
def jsTrim (s : String) : String :=
  ⟨((s.data.dropWhile Char.isWhitespace).reverse.dropWhile
      Char.isWhitespace).reverse⟩

/-- `addTask(text, category)`: trim the text; reject empty text, then reject
a category other than `"personal"`/`"professional"` (the runtime check on
the unvalidated argument); otherwise build a task with a fresh id (`genId`,
the uuid oracle), `priority = today's count + 1`, `completed = false`,
`createdAt = now`, upsert it into today's entry and return it.  A thrown
validation error is the `Except.error` branch, paired with the store the
failed call leaves behind. -/
def addTask (env : Env) (genId : String) (textArg categoryArg : String)
    (st : Store) : Except String Task × Store :=
  let text := jsTrim textArg
  if text == "" then
    (Except.error "[tasks] addTask: task text is required", st)
  else if categoryArg == "personal" then
    let task : Task := { id := genId, text := text, category := .personal,
                         priority := (getTodayTasks env st).length + 1,
                         completed := false, createdAt := env.nowMs }
    (Except.ok task, upsertTodayTask env task st)
  else if categoryArg == "professional" then
    let task : Task := { id := genId, text := text, category := .professional,
                         priority := (getTodayTasks env st).length + 1,
                         completed := false, createdAt := env.nowMs }
    (Except.ok task, upsertTodayTask env task st)
  else
    (Except.error
      ("[tasks] addTask: category must be personal or professional, received "
        ++ categoryArg), st)

/-- The `sorted.forEach((t, idx) => (t.priority = idx + 1))` pass of
`finalizeEntry`: reassign 1-based priorities along the list, starting at
`i + 1`. -/
def assignPriorities : Nat → List Task → List Task
  | _, [] => []
  | i, t :: ts => { t with priority := i + 1 } :: assignPriorities (i + 1) ts

/-- `finalizeEntry(reflection?)`: sort today's tasks by Eisenhower score,
reassign priorities `1..n`, build the day's entry, append it via
`saveDailyEntry` (which also sets `lastCompleted`), and return it. -/
def finalizeEntry (env : Env) (reflection : Option String) (st : Store) :
    DailyEntry × Store :=
  let sorted :=
    assignPriorities 0 (sortTasksByEisenhower env.nowMs (getTodayTasks env st))
  let entry : DailyEntry := { date := env.today, tasks := sorted,
                              reflection := reflection,
                              timestamp := env.nowMs }
  (entry, saveDailyEntry entry st)

/-- Result shape of the single-day `getTaskCounts` of the task-utils module:
total / personal / professional only. -/
structure TaskCounts where
  total : Nat
  personal : Nat
  professional : Nat
deriving DecidableEq, Repr

/-- Single-day `getTaskCounts(date = today)`: tallies over the first stored
entry whose date equals the given key, zeros if none matches. -/
def getTaskCounts (st : Store) (date : String) : TaskCounts :=
  match (getDailyEntries st).find? (fun e => e.date == date) with
  | some e =>
    { total := e.tasks.length,
      personal := (e.tasks.filter (fun t => t.category == .personal)).length,
      professional :=
        (e.tasks.filter (fun t => t.category == .professional)).length }
  | none => { total := 0, personal := 0, professional := 0 }

/-- Result shape of the aggregate `getTaskCounts` of the storage-adapter
variant: total / completed / pending / personal / professional. -/
structure TaskCountsAgg where
  total : Nat
  completed : Nat
  pending : Nat
  personal : Nat
  professional : Nat
deriving DecidableEq, Repr

/-- One task folded into the aggregate counters. -/
def countTask (acc : TaskCountsAgg) (t : Task) : TaskCountsAgg :=
  { acc with
    total := acc.total + 1,
    completed := acc.completed + (if t.completed then 1 else 0),
    personal := acc.personal + (if t.category == .personal then 1 else 0),
    professional :=
      acc.professional + (if t.category == .professional then 1 else 0) }

/-- Aggregate `getTaskCounts()` of the storage-adapter variant: walk every
task of every stored entry, counting total, completed (truthy flag),
personal and professional, and report `pending = total - completed`. -/
def getTaskCountsAgg (st : Store) : TaskCountsAgg :=
  let base := ((getDailyEntries st).flatMap (fun e => e.tasks)).foldl countTask
    { total := 0, completed := 0, pending := 0, personal := 0,
      professional := 0 }
  { base with pending := base.total - base.completed }

/-! ### Score bounds -/

lemma one_le_ageInHours (nowMs createdAt : Int) : 1 ≤ ageInHours nowMs createdAt :=
  le_max_right _ _

lemma ageInHours_pos (nowMs createdAt : Int) : 0 < ageInHours nowMs createdAt :=
  lt_of_lt_of_le one_pos (one_le_ageInHours nowMs createdAt)

lemma urgency_pos (nowMs createdAt : Int) : 0 < 1 / ageInHours nowMs createdAt :=
  div_pos one_pos (ageInHours_pos nowMs createdAt)

lemma urgency_le_one (nowMs createdAt : Int) : 1 / ageInHours nowMs createdAt ≤ 1 :=
  (div_le_one (ageInHours_pos nowMs createdAt)).mpr (one_le_ageInHours nowMs createdAt)

lemma score_le_two_of_personal (nowMs : Int) (t : Task)
    (h : t.category = .personal) : score nowMs t ≤ 2 := by
  have hu := urgency_le_one nowMs t.createdAt
  rw [score, h]
  simp only [importanceWeight]
  linarith

lemma two_lt_score_of_professional (nowMs : Int) (t : Task)
    (h : t.category = .professional) : 2 < score nowMs t := by
  have hu := urgency_pos nowMs t.createdAt
  rw [score, h]
  simp only [importanceWeight]
  linarith

/-! ### Sort correctness and stability -/

lemma sortTasks_perm (nowMs : Int) (l : List Task) :
    (sortTasksByEisenhower nowMs l).Perm l :=
  List.perm_insertionSort _ _

lemma sortTasks_sorted (nowMs : Int) (l : List Task) :
    (sortTasksByEisenhower nowMs l).Sorted
      (fun a b => score nowMs b ≤ score nowMs a) := by
  haveI : IsTotal Compass.Task (fun a b => score nowMs b ≤ score nowMs a) :=
    ⟨fun a b => le_total _ _⟩
  haveI : IsTrans Compass.Task (fun a b => score nowMs b ≤ score nowMs a) :=
    ⟨fun a b c h1 h2 => le_trans h2 h1⟩
  exact List.sorted_insertionSort _ _

lemma filter_orderedInsert_eq {α : Type} (r : α → α → Prop) [DecidableRel r]
    (p : α → Bool) (a : α)
    (h : p a = true → ∀ b, ¬ r a b → p b = false) (l : List α) :
    (l.orderedInsert r a).filter p = (a :: l).filter p := by
  induction l with
  | nil => rfl
  | cons b t ih =>
    rw [List.orderedInsert]
    by_cases hr : r a b
    · rw [if_pos hr]
    · rw [if_neg hr]
      cases hpa : p a with
      | true =>
        have hpb : p b = false := h hpa b hr
        simp only [List.filter_cons, hpa, hpb, if_true, if_false,
          Bool.false_eq_true] at ih ⊢
        simpa [hpa] using ih
      | false =>
        simp only [List.filter_cons, hpa, Bool.false_eq_true, if_false] at ih ⊢
        cases hpb : p b with
        | true => simpa [hpb] using congrArg (List.cons b) ih
        | false => simpa [hpb] using ih

lemma filter_insertionSort_eq {α : Type} (r : α → α → Prop) [DecidableRel r]
    (p : α → Bool)
    (h : ∀ a, p a = true → ∀ b, ¬ r a b → p b = false) (l : List α) :
    (l.insertionSort r).filter p = l.filter p := by
  induction l with
  | nil => rfl
  | cons a t ih =>
    rw [List.insertionSort, filter_orderedInsert_eq r p a (h a),
      List.filter_cons, ih, ← List.filter_cons]

/-- Concrete task A of the scoring example: professional, created 10 hours
before `now = 36000000` ms. -/
def exampleTaskA : Task :=
  { id := "A", text := "a", category := .professional, priority := 1,
    completed := false, createdAt := 0 }

/-- Concrete task B of the scoring example: personal, created 0.5 hours
before `now = 36000000` ms. -/
def exampleTaskB : Task :=
  { id := "B", text := "b", category := .personal, priority := 2,
    completed := false, createdAt := 34200000 }

/-- C4: `sortByScore` is a pure function of the input list and the current
time; the result is a permutation of the input ordered by descending score,
where `score = importanceWeight + 1 / ageInHours`, the weight is 2 for
professional and 1 for personal, and the age is clamped to at least one
hour.  Concretely, for task A (professional, 10h old, score 21/10) and
task B (personal, 0.5h old, clamped to 1h, score 2),
`sortByScore [B, A] = [A, B]`. -/
theorem sortByScore_spec :
    (∀ (nowMs : Int) (l : List Task),
        (sortTasksByEisenhower nowMs l).Sorted
          (fun a b => score nowMs b ≤ score nowMs a) ∧
        (sortTasksByEisenhower nowMs l).Perm l) ∧
    (∀ (nowMs : Int) (t : Task),
        score nowMs t =
          importanceWeight t.category + 1 / ageInHours nowMs t.createdAt) ∧
    importanceWeight .professional = 2 ∧
    importanceWeight .personal = 1 ∧
    (∀ nowMs createdAt : Int, 1 ≤ ageInHours nowMs createdAt) ∧
    score 36000000 exampleTaskA = 21 / 10 ∧
    score 36000000 exampleTaskB = 2 ∧
    sortTasksByEisenhower 36000000 [exampleTaskB, exampleTaskA] =
      [exampleTaskA, exampleTaskB] := by
  refine ⟨fun nowMs l => ⟨sortTasks_sorted nowMs l, sortTasks_perm nowMs l⟩,
    fun nowMs t => rfl, rfl, rfl, one_le_ageInHours, ?_, ?_, ?_⟩
  · simp [score, ageInHours, importanceWeight, exampleTaskA]
    norm_num
  · simp [score, ageInHours, importanceWeight, exampleTaskB]
    norm_num
  · simp [sortTasksByEisenhower, List.insertionSort, List.orderedInsert,
      score, ageInHours, importanceWeight, exampleTaskA, exampleTaskB]
    norm_num

/-- C5: `sortByScore` is stable on ties: for every score value, the tasks
carrying that score appear in the output in exactly the input order (so any
two tasks with equal scores — e.g. two personal tasks created at the exact
same timestamp — retain their relative order). -/
theorem sortByScore_stable (nowMs : Int) (l : List Task) (s : ℚ) :
    (sortTasksByEisenhower nowMs l).filter (fun t => decide (score nowMs t = s)) =
      l.filter (fun t => decide (score nowMs t = s)) := by
  apply filter_insertionSort_eq
  intro a ha b hr
  have hsa : score nowMs a = s := of_decide_eq_true ha
  have hlt : score nowMs a < score nowMs b := lt_of_not_le hr
  have : score nowMs b ≠ s := by rw [← hsa]; exact ne_of_gt hlt
  exact decide_eq_false this

/-- C8 counterexample to the tie clause: in the exact arithmetic of the
scoring formula a personal task's score (at most 2) and a professional
task's score (strictly above 2) are never equal, for any ages whatsoever —
the professional score only tends to 2 in the limit. -/
theorem no_personal_professional_tie :
    ¬ ∃ (nowMs : Int) (p q : Task), p.category = .personal ∧
        q.category = .professional ∧ score nowMs p = score nowMs q := by
  rintro ⟨n, p, q, hp, hq, he⟩
  have h1 : score n p ≤ 2 := score_le_two_of_personal n p hp
  have h2 : 2 < score n q := two_lt_score_of_professional n q hq
  rw [he] at h1
  exact absurd h1 (not_le_of_lt h2)

/-- C8 amended: the urgency term `1 / ageInHours` always lies in `(0, 1]`,
so a personal task's score (at most 2) is always strictly below a
professional task's score (strictly above 2): they never tie exactly,
though the professional score comes arbitrarily close to 2 from above as
the age grows. -/
theorem urgency_bounds_and_dominance :
    (∀ nowMs createdAt : Int,
        0 < 1 / ageInHours nowMs createdAt ∧
        1 / ageInHours nowMs createdAt ≤ 1) ∧
    (∀ (nowMs : Int) (p q : Task), p.category = .personal →
        q.category = .professional → score nowMs p < score nowMs q) ∧
    (∀ ε : ℚ, 0 < ε → ∃ (nowMs : Int) (q : Task),
        q.category = .professional ∧ 2 < score nowMs q ∧
        score nowMs q < 2 + ε) := by
  refine ⟨fun nowMs c => ⟨urgency_pos nowMs c, urgency_le_one nowMs c⟩,
    fun nowMs p q hp hq =>
      lt_of_le_of_lt (score_le_two_of_personal nowMs p hp)
        (two_lt_score_of_professional nowMs q hq), ?_⟩
  intro ε hε
  set m : ℤ := ⌈1 / ε⌉ + 1 with hm
  have hceil : (1 : ℚ) / ε ≤ (⌈1 / ε⌉ : ℚ) := Int.le_ceil _
  have hceil_pos : 0 < ⌈(1 : ℚ) / ε⌉ := Int.ceil_pos.mpr (by positivity)
  have hm1 : (1 : ℚ) ≤ (m : ℚ) := by
    have : (1 : ℤ) ≤ m := by omega
    exact_mod_cast this
  have hmgt : (1 : ℚ) / ε < (m : ℚ) := by
    have : ((⌈1 / ε⌉ : ℚ) : ℚ) < (m : ℚ) := by
      rw [hm]
      push_cast
      linarith
    linarith
  have hmpos : (0 : ℚ) < (m : ℚ) := lt_of_lt_of_le one_pos hm1
  refine ⟨1000 * 60 * 60 * m,
    { id := "q", text := "q", category := .professional, priority := 1,
      completed := false, createdAt := 0 }, rfl, ?_, ?_⟩
  · exact two_lt_score_of_professional _ _ rfl
  · have hage : ageInHours (1000 * 60 * 60 * m) 0 = (m : ℚ) := by
      rw [ageInHours, max_eq_left]
      · push_cast
        field_simp
        ring
      · push_cast
        rw [sub_zero, le_div_iff₀ (by norm_num : (0 : ℚ) < 1000 * 60 * 60)]
        linarith
    rw [score]
    simp only [importanceWeight, hage]
    have hlt : 1 / (m : ℚ) < ε := by
      rw [div_lt_iff₀ hmpos]
      have := (div_lt_iff₀ hε).mp hmgt
      linarith [mul_comm ε (m : ℚ)]
    linarith

/-! ### Upsert characterisation -/

lemma upsertIntoTasks_of_not_mem (t : Task) (l : List Task)
    (h : ∀ x ∈ l, x.id ≠ t.id) : upsertIntoTasks t l = l ++ [t] := by
  induction l with
  | nil => rfl
  | cons x xs ih =>
    have hx : ¬((x.id == t.id) = true) := by
      simp only [beq_iff_eq]
      exact h x (List.mem_cons_self x xs)
    rw [upsertIntoTasks, if_neg hx,
      ih (fun y hy => h y (List.mem_cons_of_mem x hy))]
    rfl

lemma upsertIntoTasks_set (t : Task) (l : List Task) (j : Nat) (hj : j < l.length)
    (hhit : (l.get ⟨j, hj⟩).id = t.id)
    (hmin : ∀ k (hk : k < j), (l.get ⟨k, lt_trans hk hj⟩).id ≠ t.id) :
    upsertIntoTasks t l = l.set j t := by
  induction l generalizing j with
  | nil => exact absurd hj (Nat.not_lt_zero j)
  | cons x xs ih =>
    cases j with
    | zero =>
      rw [upsertIntoTasks, if_pos]
      · rfl
      · simp only [beq_iff_eq]
        exact hhit
    | succ j =>
      have hx : x.id ≠ t.id := hmin 0 (Nat.succ_pos j)
      rw [upsertIntoTasks, if_neg (by simp only [beq_iff_eq]; exact hx),
        ih j (Nat.lt_of_succ_lt_succ hj) hhit
          (fun k hk => hmin (k + 1) (Nat.succ_lt_succ hk))]
      rfl

lemma upsertIntoTasks_countP (t : Task) (l : List Task)
    (h : l.countP (fun x => x.id == t.id) ≤ 1) :
    (upsertIntoTasks t l).countP (fun x => x.id == t.id) = 1 := by
  induction l with
  | nil => simp [upsertIntoTasks]
  | cons x xs ih =>
    rw [upsertIntoTasks]
    rw [List.countP_cons] at h
    by_cases hx : (x.id == t.id) = true
    · rw [if_pos hx]
      rw [List.countP_cons]
      have hxs : xs.countP (fun x => x.id == t.id) = 0 := by
        rw [if_pos hx] at h
        omega
      simp [hxs]
    · rw [if_neg hx, List.countP_cons, if_neg hx]
      rw [if_neg hx] at h
      simp only [Nat.add_zero] at h ⊢
      exact ih h

lemma upsertIntoTasks_length_of_mem (t : Task) (l : List Task)
    (h : ∃ x ∈ l, x.id = t.id) : (upsertIntoTasks t l).length = l.length := by
  induction l with
  | nil => simp at h
  | cons x xs ih =>
    rw [upsertIntoTasks]
    by_cases hx : (x.id == t.id) = true
    · rw [if_pos hx]
      rfl
    · rw [if_neg hx]
      have hxs : ∃ y ∈ xs, y.id = t.id := by
        rcases h with ⟨y, hy, hyid⟩
        rcases List.mem_cons.mp hy with rfl | hyxs
        · exact absurd (by simp [beq_iff_eq, hyid]) hx
        · exact ⟨y, hyxs, hyid⟩
      simp [ih hxs]

lemma upsertIntoTasks_unique (t : Task) (l : List Task)
    (h : l.countP (fun x => x.id == t.id) ≤ 1) :
    ∀ x ∈ upsertIntoTasks t l, x.id = t.id → x = t := by
  induction l with
  | nil =>
    intro x hx _
    simpa [upsertIntoTasks] using hx
  | cons y ys ih =>
    rw [upsertIntoTasks]
    rw [List.countP_cons] at h
    by_cases hy : (y.id == t.id) = true
    · rw [if_pos hy]
      rw [if_pos hy] at h
      intro x hx hxid
      rcases List.mem_cons.mp hx with rfl | hxys
      · rfl
      · have hys : ys.countP (fun x => x.id == t.id) = 0 := by omega
        have := (List.countP_eq_zero.mp hys) x hxys
        simp only [beq_iff_eq] at this
        exact absurd hxid this
    · rw [if_neg hy]
      rw [if_neg hy] at h
      simp only [Nat.add_zero] at h
      intro x hx hxid
      rcases List.mem_cons.mp hx with rfl | hxrest
      · simp only [beq_iff_eq] at hy
        exact absurd hxid hy
      · exact ih h x hxrest hxid

lemma getTodayTasks_upsertTodayTask (env : Env) (t : Task) (st : Store) :
    getTodayTasks env (upsertTodayTask env t st) =
      upsertIntoTasks t (getTodayTasks env st) := by
  show (match (upsertEntries env t st.entries).find?
          (fun e => e.date == env.today) with
        | some e => e.tasks
        | none => []) =
      upsertIntoTasks t
        (match st.entries.find? (fun e => e.date == env.today) with
         | some e => e.tasks
         | none => [])
  induction st.entries with
  | nil =>
    simp [upsertEntries, List.find?, upsertIntoTasks]
  | cons e rest ih =>
    by_cases he : (e.date == env.today) = true
    · simp only [upsertEntries, if_pos he]
      have h1 : (({ e with tasks := upsertIntoTasks t e.tasks } : DailyEntry) ::
          rest).find? (fun x => x.date == env.today) =
          some { e with tasks := upsertIntoTasks t e.tasks } :=
        List.find?_cons_of_pos _ he
      have h2 : (e :: rest).find? (fun x => x.date == env.today) = some e :=
        List.find?_cons_of_pos _ he
      rw [h1, h2]
    · simp only [upsertEntries, if_neg he]
      have h1 : (e :: upsertEntries env t rest).find?
          (fun x => x.date == env.today) =
          (upsertEntries env t rest).find? (fun x => x.date == env.today) :=
        List.find?_cons_of_neg _ he
      have h2 : (e :: rest).find? (fun x => x.date == env.today) =
          rest.find? (fun x => x.date == env.today) :=
        List.find?_cons_of_neg _ he
      rw [h1, h2]
      exact ih

/-- C3: `upsertToday` is idempotent per task id.  First, the single-call
characterisation: when today's list holds a task with the given id at
(first) position `j`, the call replaces exactly that position with the new
task (same position, same length, other entries untouched); when no task
has the id, the call appends it.  Second, under the module's invariant that
today's list holds at most one task per id, two successive upserts of the
same id leave exactly one task with that id, with the second call's fields
and the same list length as after the first call. -/
theorem upsertToday_idempotent (env : Env) (t t2 : Task) (st : Store)
    (hid : t2.id = t.id)
    (hcount : (getTodayTasks env st).countP (fun x => x.id == t.id) ≤ 1) :
    ((∀ j (hj : j < (getTodayTasks env st).length),
        ((getTodayTasks env st).get ⟨j, hj⟩).id = t.id →
        (∀ k (hk : k < j),
          ((getTodayTasks env st).get ⟨k, lt_trans hk hj⟩).id ≠ t.id) →
        getTodayTasks env (upsertTodayTask env t st) =
          (getTodayTasks env st).set j t) ∧
      ((∀ x ∈ getTodayTasks env st, x.id ≠ t.id) →
        getTodayTasks env (upsertTodayTask env t st) =
          getTodayTasks env st ++ [t])) ∧
    ((getTodayTasks env (upsertTodayTask env t2 (upsertTodayTask env t st))).countP
        (fun x => x.id == t.id) = 1 ∧
      (getTodayTasks env (upsertTodayTask env t2 (upsertTodayTask env t st))).length =
        (getTodayTasks env (upsertTodayTask env t st)).length ∧
      ∀ x ∈ getTodayTasks env (upsertTodayTask env t2 (upsertTodayTask env t st)),
        x.id = t.id → x = t2) := by
  have hbridge1 := getTodayTasks_upsertTodayTask env t st
  have hbridge2 := getTodayTasks_upsertTodayTask env t2 (upsertTodayTask env t st)
  have hpred : (fun x : Task => x.id == t2.id) = (fun x : Task => x.id == t.id) := by
    funext x
    rw [hid]
  have hcount1 : (getTodayTasks env (upsertTodayTask env t st)).countP
      (fun x => x.id == t.id) = 1 := by
    rw [hbridge1]
    exact upsertIntoTasks_countP t _ hcount
  refine ⟨⟨?_, ?_⟩, ?_, ?_, ?_⟩
  · intro j hj hhit hmin
    rw [hbridge1]
    exact upsertIntoTasks_set t _ j hj hhit hmin
  · intro hfresh
    rw [hbridge1]
    exact upsertIntoTasks_of_not_mem t _ hfresh
  · rw [hbridge2, ← hpred]
    exact upsertIntoTasks_countP t2 _ (by rw [hpred, hcount1])
  · rw [hbridge2]
    apply upsertIntoTasks_length_of_mem
    have hpos : 0 < (getTodayTasks env (upsertTodayTask env t st)).countP
        (fun x => x.id == t.id) := by omega
    rcases List.countP_pos_iff.mp hpos with ⟨x, hx, hxid⟩
    exact ⟨x, hx, by simp only [beq_iff_eq] at hxid; rw [hxid, hid]⟩
  · intro x hx hxid
    rw [hbridge2] at hx
    exact upsertIntoTasks_unique t2 _ (by rw [hpred, hcount1]) x hx (by rw [hxid, ← hid])

/-- C2: on valid input (non-empty trimmed text, category `"personal"` or
`"professional"`) and a fresh generated id, `addTask` returns a task whose
priority is the previous count of today's tasks plus one, not completed,
carrying the generated id, the trimmed text and `createdAt = now`, and it
appends exactly that task to today's list (creating today's entry when
absent). -/
theorem addTask_spec (env : Env) (genId textArg categoryArg : String) (st : Store)
    (htext : jsTrim textArg ≠ "")
    (hcat : categoryArg = "personal" ∨ categoryArg = "professional")
    (hfresh : ∀ x ∈ getTodayTasks env st, x.id ≠ genId) :
    ∃ task : Task,
      (addTask env genId textArg categoryArg st).1 = Except.ok task ∧
      task.priority = (getTodayTasks env st).length + 1 ∧
      task.completed = false ∧
      task.id = genId ∧
      task.createdAt = env.nowMs ∧
      task.text = jsTrim textArg ∧
      getTodayTasks env (addTask env genId textArg categoryArg st).2 =
        getTodayTasks env st ++ [task] := by
  have htrim : (jsTrim textArg == "") = false := by
    simp only [beq_eq_false_iff_ne, ne_eq]
    exact htext
  rcases hcat with rfl | rfl
  · refine ⟨{ id := genId, text := jsTrim textArg, category := .personal,
              priority := (getTodayTasks env st).length + 1,
              completed := false, createdAt := env.nowMs },
      ?_, rfl, rfl, rfl, rfl, rfl, ?_⟩
    · simp [addTask, htrim]
    · have hsnd : (addTask env genId textArg "personal" st).2 =
          upsertTodayTask env
            { id := genId, text := jsTrim textArg, category := .personal,
              priority := (getTodayTasks env st).length + 1,
              completed := false, createdAt := env.nowMs } st := by
        simp [addTask, htrim]
      rw [hsnd, getTodayTasks_upsertTodayTask,
        upsertIntoTasks_of_not_mem _ _ hfresh]
  · refine ⟨{ id := genId, text := jsTrim textArg, category := .professional,
              priority := (getTodayTasks env st).length + 1,
              completed := false, createdAt := env.nowMs },
      ?_, rfl, rfl, rfl, rfl, rfl, ?_⟩
    · simp [addTask, htrim]
    · have hsnd : (addTask env genId textArg "professional" st).2 =
          upsertTodayTask env
            { id := genId, text := jsTrim textArg, category := .professional,
              priority := (getTodayTasks env st).length + 1,
              completed := false, createdAt := env.nowMs } st := by
        simp [addTask, htrim]
      rw [hsnd, getTodayTasks_upsertTodayTask,
        upsertIntoTasks_of_not_mem _ _ hfresh]


/-! ### Finalize characterisation -/

lemma assignPriorities_length (n : Nat) (l : List Task) :
    (assignPriorities n l).length = l.length := by
  induction l generalizing n with
  | nil => rfl
  | cons t ts ih => simp [assignPriorities, ih]

lemma assignPriorities_get (n : Nat) (l : List Task) (i : Nat)
    (hi : i < (assignPriorities n l).length) (hi2 : i < l.length) :
    (assignPriorities n l).get ⟨i, hi⟩ =
      { l.get ⟨i, hi2⟩ with priority := n + i + 1 } := by
  induction l generalizing n i with
  | nil => exact absurd hi2 (Nat.not_lt_zero i)
  | cons t ts ih =>
    cases i with
    | zero => rfl
    | succ i =>
      have harg : n + 1 + i + 1 = n + (i + 1) + 1 := by omega
      have hi' : i < (assignPriorities (n + 1) ts).length := by
        simpa [assignPriorities] using hi
      have hi2' : i < ts.length := Nat.lt_of_succ_lt_succ hi2
      show (assignPriorities (n + 1) ts).get ⟨i, hi'⟩ = _
      rw [ih (n + 1) i hi' hi2', harg]
      rfl

/-- C1: `finalize(reflection?)` builds a DailyEntry whose date is today's
key and whose reflection is the given one, whose task list is the
Eisenhower-sorted copy of today's current tasks with priorities reassigned
to `i + 1` position by position; it appends exactly that one entry to the
stored history (length grows by one), sets the last-completed marker to
today's key, and returns the entry. -/
theorem finalizeEntry_spec (env : Env) (reflection : Option String) (st : Store) :
    (finalizeEntry env reflection st).1.date = env.today ∧
    (finalizeEntry env reflection st).1.reflection = reflection ∧
    (finalizeEntry env reflection st).1.tasks.length =
      (sortTasksByEisenhower env.nowMs (getTodayTasks env st)).length ∧
    (∀ i (hi : i < (finalizeEntry env reflection st).1.tasks.length)
        (hi2 : i < (sortTasksByEisenhower env.nowMs (getTodayTasks env st)).length),
        (finalizeEntry env reflection st).1.tasks.get ⟨i, hi⟩ =
          { (sortTasksByEisenhower env.nowMs (getTodayTasks env st)).get ⟨i, hi2⟩
              with priority := i + 1 }) ∧
    (∀ i (hi : i < (finalizeEntry env reflection st).1.tasks.length),
        ((finalizeEntry env reflection st).1.tasks.get ⟨i, hi⟩).priority = i + 1) ∧
    (finalizeEntry env reflection st).2.entries =
      st.entries ++ [(finalizeEntry env reflection st).1] ∧
    (finalizeEntry env reflection st).2.entries.length = st.entries.length + 1 ∧
    (finalizeEntry env reflection st).2.lastCompleted = some env.today := by
  have hget : ∀ i (hi : i < (finalizeEntry env reflection st).1.tasks.length)
      (hi2 : i < (sortTasksByEisenhower env.nowMs (getTodayTasks env st)).length),
      (finalizeEntry env reflection st).1.tasks.get ⟨i, hi⟩ =
        { (sortTasksByEisenhower env.nowMs (getTodayTasks env st)).get ⟨i, hi2⟩
            with priority := i + 1 } := by
    intro i hi hi2
    have h := assignPriorities_get 0 (sortTasksByEisenhower env.nowMs
      (getTodayTasks env st)) i hi hi2
    rw [Nat.zero_add] at h
    exact h
  refine ⟨rfl, rfl, assignPriorities_length 0 _, hget, ?_, rfl, ?_, rfl⟩
  swap
  · show (st.entries ++ [(finalizeEntry env reflection st).1]).length =
      st.entries.length + 1
    simp
  intro i hi
  have hi2 : i < (sortTasksByEisenhower env.nowMs (getTodayTasks env st)).length := by
    have hlen := assignPriorities_length 0 (sortTasksByEisenhower env.nowMs
      (getTodayTasks env st))
    have hi2 : i < (assignPriorities 0 (sortTasksByEisenhower env.nowMs
      (getTodayTasks env st))).length := hi
    omega
  rw [hget i hi hi2]

/-! ### Validation behaviour of addTask -/

/-- C6: `addTask` with text that trims to empty, or with a category other
than `"personal"`/`"professional"`, fails with a synchronous validation
error and leaves the store untouched; in particular
`addTask("", "personal")` and `addTask("x", "invalid")` both do. -/
theorem addTask_validation (env : Env) (genId : String) (st : Store) :
    (∀ textArg categoryArg : String,
      jsTrim textArg = "" →
        (∃ msg, (addTask env genId textArg categoryArg st).1 = Except.error msg) ∧
        (addTask env genId textArg categoryArg st).2 = st) ∧
    (∀ textArg categoryArg : String,
      categoryArg ≠ "personal" → categoryArg ≠ "professional" →
        (∃ msg, (addTask env genId textArg categoryArg st).1 = Except.error msg) ∧
        (addTask env genId textArg categoryArg st).2 = st) ∧
    ((∃ msg, (addTask env genId "" "personal" st).1 = Except.error msg) ∧
      (addTask env genId "" "personal" st).2 = st) ∧
    ((∃ msg, (addTask env genId "x" "invalid" st).1 = Except.error msg) ∧
      (addTask env genId "x" "invalid" st).2 = st) := by
  have key1 : ∀ textArg categoryArg : String, jsTrim textArg = "" →
      (∃ msg, (addTask env genId textArg categoryArg st).1 = Except.error msg) ∧
      (addTask env genId textArg categoryArg st).2 = st := by
    intro textArg categoryArg htext
    have h : (jsTrim textArg == "") = true := by
      simp [beq_iff_eq, htext]
    have he : (addTask env genId textArg categoryArg st).1 =
        Except.error "[tasks] addTask: task text is required" := by
      simp [addTask, h]
    exact ⟨⟨_, he⟩, by simp [addTask, h]⟩
  have key2 : ∀ textArg categoryArg : String,
      categoryArg ≠ "personal" → categoryArg ≠ "professional" →
      (∃ msg, (addTask env genId textArg categoryArg st).1 = Except.error msg) ∧
      (addTask env genId textArg categoryArg st).2 = st := by
    intro textArg categoryArg h1 h2
    by_cases htext : (jsTrim textArg == "") = true
    · have he : (addTask env genId textArg categoryArg st).1 =
          Except.error "[tasks] addTask: task text is required" := by
        simp [addTask, htext]
      exact ⟨⟨_, he⟩, by simp [addTask, htext]⟩
    · have hb1 : (categoryArg == "personal") = false := by
        simp only [beq_eq_false_iff_ne, ne_eq]
        exact h1
      have hb2 : (categoryArg == "professional") = false := by
        simp only [beq_eq_false_iff_ne, ne_eq]
        exact h2
      have htf : (jsTrim textArg == "") = false := by
        simpa using htext
      have he : (addTask env genId textArg categoryArg st).1 =
          Except.error
            ("[tasks] addTask: category must be personal or professional, received "
              ++ categoryArg) := by
        simp [addTask, htf, hb1, hb2]
      exact ⟨⟨_, he⟩, by simp [addTask, htf, hb1, hb2]⟩
  exact ⟨key1, key2, key1 "" "personal" (by decide),
    key2 "x" "invalid" (by decide) (by decide)⟩

/-! ### Duplicate-day behaviour of finalize -/

lemma find?_append_of_found (p : DailyEntry → Bool) (l l2 : List DailyEntry)
    (e : DailyEntry) (h : l.find? p = some e) : (l ++ l2).find? p = some e := by
  induction l with
  | nil => simp [List.find?] at h
  | cons x xs ih =>
    by_cases hx : p x = true
    · rw [List.find?_cons_of_pos _ hx] at h
      rw [List.cons_append, List.find?_cons_of_pos _ hx]
      exact h
    · rw [List.find?_cons_of_neg _ hx] at h
      rw [List.cons_append, List.find?_cons_of_neg _ hx]
      exact ih h

lemma upsertEntries_append_of_found (env : Env) (t : Task)
    (l l2 : List DailyEntry) (h : ∃ e ∈ l, e.date = env.today) :
    upsertEntries env t (l ++ l2) = upsertEntries env t l ++ l2 := by
  induction l with
  | nil => simp at h
  | cons e rest ih =>
    by_cases he : (e.date == env.today) = true
    · simp only [List.cons_append, upsertEntries, if_pos he]
      rfl
    · simp only [List.cons_append, upsertEntries, if_neg he]
      have hrest : ∃ x ∈ rest, x.date = env.today := by
        rcases h with ⟨x, hx, hxd⟩
        rcases List.mem_cons.mp hx with rfl | hxr
        · exact absurd (by simp [beq_iff_eq, hxd]) he
        · exact ⟨x, hxr, hxd⟩
      show e :: upsertEntries env t (rest ++ l2) = _
      rw [ih hrest]

lemma getTodayTasks_of_entries_eq (env : Env) (st st2 : Store)
    (e : DailyEntry)
    (h : st.entries.find? (fun x => x.date == env.today) = some e)
    (h2 : st2.entries.find? (fun x => x.date == env.today) = some e) :
    getTodayTasks env st2 = getTodayTasks env st := by
  show (match st2.entries.find? (fun x => x.date == env.today) with
        | some e => e.tasks | none => []) =
      (match st.entries.find? (fun x => x.date == env.today) with
        | some e => e.tasks | none => [])
  rw [h, h2]

/-- C10 (implicit): `finalize` appends its entry without removing or
replacing the entry `addTask`/`upsertToday` created for the same day, so
afterwards the history holds at least two entries carrying today's key;
`getToday` still returns the pre-finalize first entry's task list in its
original order (never the sorted finalized list), and a subsequent
`upsertToday` still modifies that first entry while the finalized entry
stays untouched at the end of the history. -/
theorem finalize_appends_duplicate_day (env : Env) (reflection : Option String)
    (t : Task) (st : Store) (h : ∃ e ∈ getDailyEntries st, e.date = env.today) :
    (finalizeEntry env reflection st).2.entries.countP
        (fun e => e.date == env.today) =
      st.entries.countP (fun e => e.date == env.today) + 1 ∧
    2 ≤ (finalizeEntry env reflection st).2.entries.countP
        (fun e => e.date == env.today) ∧
    getTodayTasks env (finalizeEntry env reflection st).2 = getTodayTasks env st ∧
    getTodayTasks env (upsertTodayTask env t (finalizeEntry env reflection st).2) =
      upsertIntoTasks t (getTodayTasks env st) ∧
    (upsertTodayTask env t (finalizeEntry env reflection st).2).entries.getLast? =
      some (finalizeEntry env reflection st).1 := by
  rcases h with ⟨e0, he0, he0d⟩
  have he0e : e0 ∈ st.entries := he0
  have hcount : st.entries.countP (fun e => e.date == env.today) + 1 =
      (st.entries ++ [(finalizeEntry env reflection st).1]).countP
        (fun e => e.date == env.today) := by
    rw [List.countP_append]
    simp [finalizeEntry, List.countP_cons]
  have hpos : 0 < st.entries.countP (fun e => e.date == env.today) :=
    List.countP_pos_iff.mpr ⟨e0, he0, by simp [beq_iff_eq, he0d]⟩
  have hfound : ∃ e, st.entries.find? (fun x => x.date == env.today) = some e := by
    have : ∃ x ∈ st.entries, (fun x : DailyEntry => x.date == env.today) x = true :=
      ⟨e0, he0, by simp [beq_iff_eq, he0d]⟩
    have hsome : (st.entries.find? (fun x => x.date == env.today)).isSome := by
      rw [List.find?_isSome]
      exact this
    cases hf : st.entries.find? (fun x => x.date == env.today) with
    | none => rw [hf] at hsome; simp at hsome
    | some e => exact ⟨e, rfl⟩
  rcases hfound with ⟨efound, hefound⟩
  have hentries2 : (finalizeEntry env reflection st).2.entries =
      st.entries ++ [(finalizeEntry env reflection st).1] := rfl
  have hfind2 : (finalizeEntry env reflection st).2.entries.find?
      (fun x => x.date == env.today) = some efound := by
    rw [hentries2]
    exact find?_append_of_found _ _ _ _ hefound
  have htoday2 : getTodayTasks env (finalizeEntry env reflection st).2 =
      getTodayTasks env st :=
    getTodayTasks_of_entries_eq env st _ efound hefound hfind2
  have hup : getTodayTasks env (upsertTodayTask env t
      (finalizeEntry env reflection st).2) =
      upsertIntoTasks t (getTodayTasks env st) := by
    rw [getTodayTasks_upsertTodayTask, htoday2]
  refine ⟨hcount.symm, ?_, htoday2, hup, ?_⟩
  · show 2 ≤ (st.entries ++ [(finalizeEntry env reflection st).1]).countP
      (fun e => e.date == env.today)
    omega
  · show (upsertEntries env t ((finalizeEntry env reflection st).2.entries)).getLast? = _
    rw [hentries2, upsertEntries_append_of_found env t _ _ ⟨e0, he0e, he0d⟩]
    exact List.getLast?_concat _


/-! ### Counts -/

/-- The tasks the single-day counts scan: the first entry matching the key
(empty when none matches). -/
def scannedTasks (st : Store) (date : String) : List Task :=
  match (getDailyEntries st).find? (fun e => e.date == date) with
  | some e => e.tasks
  | none => []

/-- The tasks the aggregate counts scan: every task of every entry. -/
def allTasks (st : Store) : List Task :=
  (getDailyEntries st).flatMap (fun e => e.tasks)

lemma foldl_countTask (l : List Task) (acc : TaskCountsAgg) :
    (l.foldl countTask acc).total = acc.total + l.length ∧
    (l.foldl countTask acc).completed =
      acc.completed + l.countP (fun t => t.completed) ∧
    (l.foldl countTask acc).pending = acc.pending ∧
    (l.foldl countTask acc).personal =
      acc.personal + l.countP (fun t => t.category == .personal) ∧
    (l.foldl countTask acc).professional =
      acc.professional + l.countP (fun t => t.category == .professional) := by
  induction l generalizing acc with
  | nil => simp
  | cons t ts ih =>
    obtain ⟨h1, h2, h3, h4, h5⟩ := ih (countTask acc t)
    simp only [List.foldl_cons, List.countP_cons, List.length_cons]
    refine ⟨?_, ?_, ?_, ?_, ?_⟩
    · rw [h1]
      simp only [countTask]
      omega
    · rw [h2]
      simp only [countTask]
      cases ht : t.completed <;> simp +arith [ht]
    · rw [h3]
      simp [countTask]
    · rw [h4]
      simp only [countTask]
      cases hc : t.category <;> simp +arith [hc]
    · rw [h5]
      simp only [countTask]
      cases hc : t.category <;> simp +arith [hc]

/-- The day-`"d"` personal task of the counts counterexample, pending. -/
def cTaskA : Task :=
  { id := "t1", text := "x", category := .personal, priority := 1,
    completed := false, createdAt := 0 }

/-- The same task marked completed. -/
def cTaskB : Task :=
  { id := "t1", text := "x", category := .personal, priority := 1,
    completed := true, createdAt := 0 }

/-- Store holding one personal task for day `"d"`, not completed. -/
def cStoreA : Store :=
  { entries := [{ date := "d", tasks := [cTaskA], reflection := none,
                  timestamp := 0 }],
    lastCompleted := none }

/-- The same store with the task marked completed. -/
def cStoreB : Store :=
  { entries := [{ date := "d", tasks := [cTaskB], reflection := none,
                  timestamp := 0 }],
    lastCompleted := none }

/-- C9 counterexample: the single-day `getTaskCounts` does not return a
completed tally — two stores whose completed counts for day `"d"` differ
(0 versus 1) produce identical results, so no component of the single-day
result can be the number of completed scanned tasks. -/
theorem getTaskCounts_no_completed_tally :
    getTaskCounts cStoreA "d" = getTaskCounts cStoreB "d" ∧
    (scannedTasks cStoreA "d").countP (fun t => t.completed) = 0 ∧
    (scannedTasks cStoreB "d").countP (fun t => t.completed) = 1 := by
  refine ⟨?_, ?_, ?_⟩ <;> decide

/-- C9 amended: the single-day variant returns total, personal and
professional tallies (but no completed tally) over the first stored entry
whose date equals the given key, all zero when none matches; the
aggregate-history variant returns total, completed, pending, personal and
professional tallies over every task of every entry; each returned tally
equals the number of scanned tasks satisfying its predicate. -/
theorem getCounts_spec (st : Store) (date : String) :
    ((getTaskCounts st date).total = (scannedTasks st date).length ∧
      (getTaskCounts st date).personal =
        (scannedTasks st date).countP (fun t => t.category == .personal) ∧
      (getTaskCounts st date).professional =
        (scannedTasks st date).countP (fun t => t.category == .professional)) ∧
    ((getDailyEntries st).find? (fun e => e.date == date) = none →
      getTaskCounts st date = { total := 0, personal := 0, professional := 0 }) ∧
    ((getTaskCountsAgg st).total = (allTasks st).length ∧
      (getTaskCountsAgg st).completed =
        (allTasks st).countP (fun t => t.completed) ∧
      (getTaskCountsAgg st).pending =
        (getTaskCountsAgg st).total - (getTaskCountsAgg st).completed ∧
      (getTaskCountsAgg st).personal =
        (allTasks st).countP (fun t => t.category == .personal) ∧
      (getTaskCountsAgg st).professional =
        (allTasks st).countP (fun t => t.category == .professional)) := by
  obtain ⟨h1, h2, h3, h4, h5⟩ := foldl_countTask (allTasks st)
    { total := 0, completed := 0, pending := 0, personal := 0, professional := 0 }
  refine ⟨⟨?_, ?_, ?_⟩, ?_, ?_, ?_, ?_, ?_, ?_⟩
  · cases hf : (getDailyEntries st).find? (fun e => e.date == date) with
    | none => simp [getTaskCounts, scannedTasks, hf]
    | some e =>
      simp [getTaskCounts, scannedTasks, hf, List.countP_eq_length_filter]
  · cases hf : (getDailyEntries st).find? (fun e => e.date == date) with
    | none => simp [getTaskCounts, scannedTasks, hf]
    | some e =>
      simp [getTaskCounts, scannedTasks, hf, List.countP_eq_length_filter]
  · cases hf : (getDailyEntries st).find? (fun e => e.date == date) with
    | none => simp [getTaskCounts, scannedTasks, hf]
    | some e =>
      simp [getTaskCounts, scannedTasks, hf, List.countP_eq_length_filter]
  · intro hf
    simp [getTaskCounts, hf]
  · show ((allTasks st).foldl countTask
        { total := 0, completed := 0, pending := 0, personal := 0,
          professional := 0 }).total = (allTasks st).length
    rw [h1]
    simp
  · show ((allTasks st).foldl countTask
        { total := 0, completed := 0, pending := 0, personal := 0,
          professional := 0 }).completed =
      (allTasks st).countP (fun t => t.completed)
    rw [h2]
    simp
  · rfl
  · show ((allTasks st).foldl countTask
        { total := 0, completed := 0, pending := 0, personal := 0,
          professional := 0 }).personal =
      (allTasks st).countP (fun t => t.category == .personal)
    rw [h4]
    simp
  · show ((allTasks st).foldl countTask
        { total := 0, completed := 0, pending := 0, personal := 0,
          professional := 0 }).professional =
      (allTasks st).countP (fun t => t.category == .professional)
    rw [h5]
    simp


/-! ### Raw storage layer: JSON grammar and corrupt-storage behaviour -/

/-- JSON values as produced by `JSON.parse`.  A number keeps its lexeme and
a string its decoded characters; the storage claims depend only on which
raw strings parse at all. -/
inductive Json where
  | null
  | bool (b : Bool)
  | num (lexeme : String)
  | str (s : String)
  | arr (elems : List Json)
  | obj (fields : List (String × Json))

/-- Skip JSON whitespace. -/
def skipWs : List Char → List Char
  | c :: rest =>
    if c = ' ' ∨ c = '\t' ∨ c = '\n' ∨ c = '\r' then skipWs rest
    else c :: rest
  | [] => []

/-- Hexadecimal digit test. -/
def isHexDigit (c : Char) : Bool :=
  c.isDigit ∨ ('a' ≤ c ∧ c ≤ 'f') ∨ ('A' ≤ c ∧ c ≤ 'F')

/-- Hexadecimal digit value. -/
def hexVal (c : Char) : Nat :=
  if c.isDigit then c.toNat - '0'.toNat
  else if 'a' ≤ c ∧ c ≤ 'f' then c.toNat - 'a'.toNat + 10
  else c.toNat - 'A'.toNat + 10

/-- Parse the body of a JSON string after the opening quote; returns the
decoded characters and the rest of the input after the closing quote. -/
def parseStringBody : List Char → Option (List Char × List Char)
  | [] => none
  | '"' :: rest => some ([], rest)
  | '\\' :: esc =>
    match esc with
    | '"' :: rest => (parseStringBody rest).map (fun p => ('"' :: p.1, p.2))
    | '\\' :: rest => (parseStringBody rest).map (fun p => ('\\' :: p.1, p.2))
    | '/' :: rest => (parseStringBody rest).map (fun p => ('/' :: p.1, p.2))
    | 'b' :: rest => (parseStringBody rest).map (fun p => ('\x08' :: p.1, p.2))
    | 'f' :: rest => (parseStringBody rest).map (fun p => ('\x0c' :: p.1, p.2))
    | 'n' :: rest => (parseStringBody rest).map (fun p => ('\n' :: p.1, p.2))
    | 'r' :: rest => (parseStringBody rest).map (fun p => ('\r' :: p.1, p.2))
    | 't' :: rest => (parseStringBody rest).map (fun p => ('\t' :: p.1, p.2))
    | 'u' :: h1 :: h2 :: h3 :: h4 :: rest =>
      if isHexDigit h1 ∧ isHexDigit h2 ∧ isHexDigit h3 ∧ isHexDigit h4 then
        (parseStringBody rest).map (fun p =>
          (Char.ofNat
              (((hexVal h1 * 16 + hexVal h2) * 16 + hexVal h3) * 16 + hexVal h4)
            :: p.1, p.2))
      else none
    | _ => none
  | c :: rest =>
    if c.toNat < 32 then none
    else (parseStringBody rest).map (fun p => (c :: p.1, p.2))

/-- Greedy run of decimal digits. -/
def spanDigits (cs : List Char) : List Char × List Char :=
  cs.span Char.isDigit

/-- Optional exponent part of a JSON number. -/
def parseExpPart (cs : List Char) : Option (List Char × List Char) :=
  match cs with
  | c :: r =>
    if c = 'e' ∨ c = 'E' then
      let sr : List Char × List Char :=
        match r with
        | s :: r3 => if s = '+' ∨ s = '-' then ([s], r3) else ([], r)
        | [] => ([], r)
      match spanDigits sr.2 with
      | ([], _) => none
      | (ds, r3) => some (c :: sr.1 ++ ds, r3)
    else some ([], cs)
  | [] => some ([], [])

/-- Optional fraction and exponent parts of a JSON number. -/
def parseFracExp (cs : List Char) : Option (List Char × List Char) :=
  match cs with
  | '.' :: r =>
    (match spanDigits r with
     | ([], _) => none
     | (ds, r2) => (parseExpPart r2).map (fun p => ('.' :: ds ++ p.1, p.2)))
  | _ => parseExpPart cs

/-- Parse a JSON number lexeme (strict grammar: optional minus, integer
part without leading zeros, optional fraction, optional exponent). -/
def parseNumber (cs : List Char) : Option (List Char × List Char) :=
  let sr : List Char × List Char :=
    match cs with
    | '-' :: r => (['-'], r)
    | _ => ([], cs)
  match sr.2 with
  | [] => none
  | c :: r =>
    if c = '0' then
      (parseFracExp r).map (fun p => (sr.1 ++ c :: p.1, p.2))
    else if c.isDigit then
      match spanDigits r with
      | (ds, r2) => (parseFracExp r2).map (fun p => (sr.1 ++ c :: ds ++ p.1, p.2))
    else none

mutual

/-- Parse one JSON value; the fuel bounds the nesting depth. -/
def parseVal : Nat → List Char → Option (Json × List Char)
  | 0, _ => none
  | Nat.succ fuel, cs =>
    match skipWs cs with
    | [] => none
    | 'n' :: 'u' :: 'l' :: 'l' :: rest => some (Json.null, rest)
    | 't' :: 'r' :: 'u' :: 'e' :: rest => some (Json.bool true, rest)
    | 'f' :: 'a' :: 'l' :: 's' :: 'e' :: rest => some (Json.bool false, rest)
    | '"' :: rest =>
      (parseStringBody rest).map (fun p => (Json.str ⟨p.1⟩, p.2))
    | '[' :: rest =>
      (match skipWs rest with
       | ']' :: rest2 => some (Json.arr [], rest2)
       | cs2 => (parseElems fuel cs2).map (fun p => (Json.arr p.1, p.2)))
    | '\x7b' :: rest =>
      (match skipWs rest with
       | '\x7d' :: rest2 => some (Json.obj [], rest2)
       | cs2 => (parseMembers fuel cs2).map (fun p => (Json.obj p.1, p.2)))
    | c :: rest =>
      if c = '-' ∨ c.isDigit then
        (parseNumber (c :: rest)).map (fun p => (Json.num ⟨p.1⟩, p.2))
      else none

/-- Parse the comma-separated elements of a non-empty JSON array up to the
closing bracket. -/
def parseElems : Nat → List Char → Option (List Json × List Char)
  | 0, _ => none
  | Nat.succ fuel, cs =>
    match parseVal fuel cs with
    | none => none
    | some (j, rest) =>
      match skipWs rest with
      | ',' :: rest2 => (parseElems fuel rest2).map (fun p => (j :: p.1, p.2))
      | ']' :: rest2 => some ([j], rest2)
      | _ => none

/-- Parse the comma-separated members of a non-empty JSON object up to the
closing brace. -/
def parseMembers : Nat → List Char → Option (List (String × Json) × List Char)
  | 0, _ => none
  | Nat.succ fuel, cs =>
    match skipWs cs with
    | '"' :: rest =>
      (match parseStringBody rest with
       | none => none
       | some (key, rest2) =>
         match skipWs rest2 with
         | ':' :: rest3 =>
           (match parseVal fuel rest3 with
            | none => none
            | some (v, rest4) =>
              match skipWs rest4 with
              | ',' :: rest5 =>
                (parseMembers fuel rest5).map
                  (fun p => ((⟨key⟩, v) :: p.1, p.2))
              | '\x7d' :: rest5 => some ([(⟨key⟩, v)], rest5)
              | _ => none)
         | _ => none)
    | _ => none

end

/-- `JSON.parse`: parse a complete document, `none` modelling a thrown
SyntaxError.  Fuel `length + 1` dominates the nesting depth, because every
recursive step first consumes at least one character. -/
def jsonParse (s : String) : Option Json :=
  match parseVal (s.length + 1) s.data with
  | some (j, rest) => if skipWs rest = [] then some j else none
  | none => none

/-- Raw view of the two localStorage keys: uninterpreted strings. -/
structure RawStore where
  entries : Option String
  lastCompleted : Option String

/-- `getDailyEntries` of the task-utils module at the raw level:
`JSON.parse(localStorage.getItem(ENTRIES_KEY) || '[]')` inside a try/catch
whose catch returns `[]`.  A missing (or empty, hence JS-falsy) raw value
parses the fallback `"[]"`; a parse failure is caught and yields the empty
array.  The result is the parsed JSON value — the source casts it to
`DailyEntry[]` without validation. -/
def getDailyEntriesRaw (st : RawStore) : Json :=
  let raw : String :=
    match st.entries with
    | none => "[]"
    | some s => if s == "" then "[]" else s
  match jsonParse raw with
  | some j => j
  | none => Json.arr []

/-- `getDailyEntries` of the storage-adapter variant at the raw level: a
missing (or empty) key returns `[]`; a parse failure removes the corrupt
key and returns `[]`. -/
def getDailyEntriesRawV2 (st : RawStore) : Json × RawStore :=
  match st.entries with
  | none => (Json.arr [], st)
  | some raw =>
    if raw == "" then (Json.arr [], st)
    else
      match jsonParse raw with
      | some j => (j, st)
      | none => (Json.arr [], { st with entries := none })

/-- C7: `load()` never throws: with the entries key missing it returns the
empty sequence, and on malformed data — any raw value that fails to parse,
in particular the literal string `"not json"` — it returns the empty
sequence instead of propagating the error; the storage-adapter variant
additionally deletes the corrupt key.  In this embedding both loaders are
total functions, so no storage-read error can reach a caller. -/
theorem load_never_throws :
    (∀ lc, getDailyEntriesRaw { entries := none, lastCompleted := lc } =
      Json.arr []) ∧
    (∀ lc raw, jsonParse raw = none →
      getDailyEntriesRaw { entries := some raw, lastCompleted := lc } =
        Json.arr []) ∧
    (∀ lc, getDailyEntriesRaw
        { entries := some "not json", lastCompleted := lc } = Json.arr []) ∧
    (∀ lc, getDailyEntriesRawV2 { entries := none, lastCompleted := lc } =
      (Json.arr [], { entries := none, lastCompleted := lc })) ∧
    (∀ lc, getDailyEntriesRawV2
        { entries := some "not json", lastCompleted := lc } =
      (Json.arr [], { entries := none, lastCompleted := lc })) := by
  refine ⟨fun lc => rfl, ?_, fun lc => rfl, fun lc => rfl, fun lc => rfl⟩
  intro lc raw hparse
  show (match jsonParse (if raw == "" then "[]" else raw) with
        | some j => j
        | none => Json.arr []) = Json.arr []
  by_cases hr : (raw == "") = true
  · rw [if_pos hr]
    rfl
  · rw [if_neg hr, hparse]

/-! ### Concrete instances for the witnesses -/

/-- Concrete ambient observations: midnight epoch, a fixed day key. -/
def wEnv : Env :=
  { nowMs := 0, today := "Mon Jan 01 2024" }

/-- A concrete personal task. -/
def wTask : Task :=
  { id := "w1", text := "demo", category := .personal, priority := 1,
    completed := false, createdAt := 0 }

/-- The same id with changed fields (second upsert). -/
def wTask2 : Task :=
  { id := "w1", text := "demo edited", category := .personal, priority := 1,
    completed := true, createdAt := 0 }

/-- A concrete professional task. -/
def wProfTask : Task :=
  { id := "w2", text := "report", category := .professional, priority := 1,
    completed := false, createdAt := 0 }

/-- The empty store. -/
def wStore0 : Store :=
  { entries := [], lastCompleted := none }

/-- Today's entry of the concrete store. -/
def wEntry : DailyEntry :=
  { date := "Mon Jan 01 2024", tasks := [wTask], reflection := none,
    timestamp := 0 }

/-- A store already holding today's entry with one task. -/
def wStoreT : Store :=
  { entries := [wEntry], lastCompleted := none }

/-- Witness for the finalize specification at a concrete one-task store. -/
theorem finalizeEntry_spec_witness :
    (finalizeEntry wEnv (some "felt good") wStoreT).1.date = wEnv.today ∧
    (finalizeEntry wEnv (some "felt good") wStoreT).1.reflection =
      some "felt good" ∧
    ((finalizeEntry wEnv (some "felt good") wStoreT).1.tasks.get
        ⟨0, by decide⟩).priority = 0 + 1 ∧
    (finalizeEntry wEnv (some "felt good") wStoreT).2.entries.length =
      wStoreT.entries.length + 1 ∧
    (finalizeEntry wEnv (some "felt good") wStoreT).2.lastCompleted =
      some wEnv.today := by
  have h := finalizeEntry_spec wEnv (some "felt good") wStoreT
  exact ⟨h.1, h.2.1, h.2.2.2.2.1 0 (by decide), h.2.2.2.2.2.2.1,
    h.2.2.2.2.2.2.2⟩

/-- Witness for the addTask specification at a concrete valid call. -/
theorem addTask_spec_witness :
    (jsTrim " demo " ≠ "" ∧
      ("personal" = "personal" ∨ "personal" = "professional")) ∧
    (∃ task : Task,
      (addTask wEnv "w1" " demo " "personal" wStore0).1 = Except.ok task ∧
      task.priority = (getTodayTasks wEnv wStore0).length + 1 ∧
      task.completed = false ∧
      task.id = "w1" ∧
      task.createdAt = wEnv.nowMs ∧
      task.text = jsTrim " demo " ∧
      getTodayTasks wEnv (addTask wEnv "w1" " demo " "personal" wStore0).2 =
        getTodayTasks wEnv wStore0 ++ [task]) :=
  ⟨⟨by decide, Or.inl rfl⟩,
    addTask_spec wEnv "w1" " demo " "personal" wStore0 (by decide)
      (Or.inl rfl) (by decide)⟩

/-- Witness for upsert idempotence: two upserts of the same id into the
empty store leave exactly one task with that id. -/
theorem upsertToday_idempotent_witness :
    (wTask2.id = wTask.id ∧
      (getTodayTasks wEnv wStore0).countP (fun x => x.id == wTask.id) ≤ 1) ∧
    (getTodayTasks wEnv
        (upsertTodayTask wEnv wTask2 (upsertTodayTask wEnv wTask wStore0))).countP
      (fun x => x.id == wTask.id) = 1 ∧
    (getTodayTasks wEnv
        (upsertTodayTask wEnv wTask2 (upsertTodayTask wEnv wTask wStore0))).length =
      (getTodayTasks wEnv (upsertTodayTask wEnv wTask wStore0)).length := by
  have h := upsertToday_idempotent wEnv wTask wTask2 wStore0 rfl (by decide)
  exact ⟨⟨rfl, by decide⟩, h.2.1, h.2.2.1⟩

/-- Witness for addTask validation at the two concrete invalid calls. -/
theorem addTask_validation_witness :
    (addTask wEnv "w1" "" "personal" wStore0).1 =
      Except.error "[tasks] addTask: task text is required" ∧
    (addTask wEnv "w1" "" "personal" wStore0).2 = wStore0 ∧
    (addTask wEnv "w1" "x" "invalid" wStore0).1 =
      Except.error
        ("[tasks] addTask: category must be personal or professional, received "
          ++ "invalid") ∧
    (addTask wEnv "w1" "x" "invalid" wStore0).2 = wStore0 := by
  have h := addTask_validation wEnv "w1" wStore0
  exact ⟨rfl, h.2.2.1.2, rfl, h.2.2.2.2⟩

/-- Witness for the corrupt-storage behaviour at the literal `"not json"`. -/
theorem load_never_throws_witness :
    jsonParse "not json" = none ∧
    getDailyEntriesRaw { entries := some "not json", lastCompleted := none } =
      Json.arr [] :=
  ⟨rfl, load_never_throws.2.1 none "not json" rfl⟩

/-- Witness for the score bounds and professional dominance at concrete
tasks. -/
theorem urgency_bounds_witness :
    (0 < 1 / ageInHours 0 0 ∧ 1 / ageInHours 0 0 ≤ 1) ∧
    score 0 wTask < score 0 wProfTask :=
  ⟨urgency_bounds_and_dominance.1 0 0,
    urgency_bounds_and_dominance.2.1 0 wTask wProfTask rfl rfl⟩

/-- Witness for the counts contract at a store with no matching entry. -/
theorem getCounts_spec_witness :
    (getDailyEntries wStore0).find? (fun e => e.date == "d") = none ∧
    getTaskCounts wStore0 "d" =
      { total := 0, personal := 0, professional := 0 } ∧
    (getTaskCountsAgg wStore0).total = (allTasks wStore0).length :=
  ⟨rfl, (getCounts_spec wStore0 "d").2.1 rfl, (getCounts_spec wStore0 "d").2.2.1⟩

/-- Witness for the duplicate-day behaviour of finalize at a concrete
store that already holds today's entry. -/
theorem finalize_appends_duplicate_day_witness :
    (finalizeEntry wEnv none wStoreT).2.entries.countP
        (fun e => e.date == wEnv.today) =
      wStoreT.entries.countP (fun e => e.date == wEnv.today) + 1 ∧
    2 ≤ (finalizeEntry wEnv none wStoreT).2.entries.countP
        (fun e => e.date == wEnv.today) ∧
    getTodayTasks wEnv (finalizeEntry wEnv none wStoreT).2 =
      getTodayTasks wEnv wStoreT := by
  have h := finalize_appends_duplicate_day wEnv none wTask2 wStoreT
    ⟨wEntry, by decide, rfl⟩
  exact ⟨h.1, h.2.1, h.2.2.1⟩

end Compass
